import Mathlib

/-!
Verification of `scripts/collect_all_reports.py` (Transobserver-Vision).

The script is sequential orchestration around the `gh` CLI: it reads a
repository list, lists recent workflow runs per repository, picks one run by a
priority policy, downloads its artifacts, and aggregates one record per
repository into a manifest, optionally zipping the output directory.

Shallow embedding conventions:
* Python strings are Lean `String`s; the string operations the script uses
  (`strip`, `lower`, slicing, `startswith`) are re-implemented below on the
  underlying character list so that they evaluate by kernel reduction.
  `path.read_text().splitlines()` is abstracted: the loader takes the list of
  lines of the file.
* The external world (`subprocess.run` of `gh`, JSON parsing of its output)
  is an `Env` record: the outcome of the listing command per repository, the
  outcome of the download command per run, and the exit code of
  `gh --version`.  JSON decoding of a successful listing is abstracted to the
  typed list of run records it produces.
* Filesystem side effects that the claims talk about (per-run metadata and
  log writes, the single manifest write, the zip write) are recorded as an
  explicit event trace.
-/

/-- Python `str.strip()` (ASCII whitespace): drop whitespace from both ends. -/
def pyStrip (s : String) : String :=
  ⟨((s.data.dropWhile Char.isWhitespace).reverse.dropWhile Char.isWhitespace).reverse⟩

/-- Python `str.lower()` (ASCII range, enough for the literals compared). -/
def pyLower (s : String) : String :=
  ⟨s.data.map Char.toLower⟩

/-- Python slicing `s[:n]`. -/
def pyTake (n : Nat) (s : String) : String :=
  ⟨s.data.take n⟩

/-- Python `s.startswith("#")`. -/
def startsWithHash (s : String) : Bool :=
  s.data.head? == some '#'

/-- Python falsiness of a string: `not s` is true exactly when `s` is empty. -/
def pyEmpty (s : String) : Bool :=
  s.data.isEmpty

/-- `read_repos_file` (source lines 45-52): for each line of the file, strip
it; skip it when the stripped form is empty or starts with `#`; otherwise keep
the stripped form, in file order. -/
def read_repos_file (fileLines : List String) : List String :=
  fileLines.filterMap (fun line =>
    let s := pyStrip line
    if pyEmpty s || startsWithHash s then none else some s)

/-- `RunInfo` dataclass (source lines 55-63). -/
structure RunInfo where
  database_id : Nat
  status : String
  conclusion : Option String
  created_at : String
  display_title : Option String
  workflow_name : Option String
  html_url : Option String
deriving DecidableEq, Repr

/-- The filter of the `completed` list in `pick_run`: `r.status == "completed"`. -/
def isCompletedRun (r : RunInfo) : Bool :=
  r.status == "completed"

/-- The filter of the `success` list in `pick_run`:
`(r.conclusion or "").lower() == "success"`.  Python `or` yields `""` both for
`None` and for the empty string, which `Option.getD` matches up to the
subsequent `lower`/comparison. -/
def isSuccessRun (r : RunInfo) : Bool :=
  pyLower (r.conclusion.getD "") == "success"

/-- `pick_run` (source lines 101-109): first completed+success run, else first
completed run, else first run, else none.  Python `success[0]` guarded by
truthiness is `head?` matching. -/
def pick_run (runs : List RunInfo) : Option RunInfo :=
  let completed := runs.filter isCompletedRun
  let success := completed.filter isSuccessRun
  match success.head? with
  | some r => some r
  | none =>
    match completed.head? with
    | some r => some r
    | none => runs.head?

/-- `sanitize_repo` (source lines 128-129): replace each `/` by `__`. -/
def sanitize_repo (repo : String) : String :=
  ⟨(repo.data.map (fun c => if c == '/' then ['_', '_'] else [c])).flatten⟩

example : pick_run [] = none := by rfl
example : read_repos_file ["acme/widgets", "# acme/old"] = ["acme/widgets"] := by rfl
example : sanitize_repo "a/b" = "a__b" := by rfl

/-- Outcome of the external `gh run list` invocation for one repository, as
`gh_list_runs` distinguishes them (source lines 76-98): the command exits
non-zero with some combined output, or it exits zero but its output is not
valid JSON, or it exits zero and its output decodes to a list of run records
(most-recent first, as returned by `gh`). -/
inductive ListResult where
  | cmdFailed (out : String)
  | parseFailed
  | ok (runs : List RunInfo)
deriving Repr

/-- The external world of one invocation: exit code and output of
`gh --version` (source lines 29-32), the listing outcome per
(repository, workflow filter, limit), and the (exit code, combined output) of
`gh run download` per (repository, run id). -/
structure Env where
  ghVersionRc : Nat
  ghVersionOut : String
  listOutcome : String → String → Nat → ListResult
  downloadRun : String → Nat → Nat × String

/-- `gh_list_runs` (source lines 66-98): returns `(ok, msg, runs)`; on a
non-zero exit `(False, out.strip(), [])`, on malformed JSON
`(False, "json_parse_failed", [])`, else `(True, "ok", runs)`. -/
def gh_list_runs (env : Env) (repo : String) (workflow : String) (limit : Nat) :
    Bool × String × List RunInfo :=
  match env.listOutcome repo workflow limit with
  | .cmdFailed out => (false, pyStrip out, [])
  | .parseFailed => (false, "json_parse_failed", [])
  | .ok runs => (true, "ok", runs)

/-- `gh_download_run` (source lines 112-116): one invocation of
`gh run download`, returning `(rc == 0, out.strip())`. -/
def gh_download_run (env : Env) (repo : String) (run_id : Nat) : Bool × String :=
  let r := env.downloadRun repo run_id
  (r.1 == 0, pyStrip r.2)

/-- One manifest item (the dict built at source lines 156-162 and mutated
through 199): repository, workflow filter, chosen run (or none), download
success flag, error string (or none). -/
structure Item where
  repo : String
  workflow_filter : String
  selected_run : Option RunInfo
  download_ok : Bool
  error : Option String
deriving DecidableEq, Repr

/-- The manifest (source lines 148-153, 201): workflow filter and the ordered
item list.  The timestamps and the repos-file path are opaque strings with no
bearing on the claims and are omitted. -/
structure Manifest where
  workflow_filter : String
  items : List Item
deriving DecidableEq, Repr

/-- Observable side effects of `main`, in program order: a `gh run list` call,
the per-run `run_meta.json` write (source line 189), a `gh run download` call
(line 190), the per-run `download.log` write (line 191), the single
`manifest.json` write (line 202), and the zip bundle write (lines 204-207). -/
inductive Event where
  | listCall (repo : String)
  | writeRunMeta (repo : String) (runId : Nat)
  | downloadCall (repo : String) (runId : Nat)
  | writeLog (repo : String) (runId : Nat)
  | writeManifest
  | zipWrite
deriving DecidableEq, Repr

def isListCall : Event → Bool
  | .listCall _ => true
  | _ => false

def isDownloadCall : Event → Bool
  | .downloadCall _ _ => true
  | _ => false

def isWriteManifest : Event → Bool
  | .writeManifest => true
  | _ => false

/-- Events emitted inside the per-repository loop body (source lines
155-199): everything except the manifest write and the zip write. -/
def isRepoEvent : Event → Bool
  | .writeManifest => false
  | .zipWrite => false
  | _ => true

/-- One iteration of the loop of `main` (source lines 155-199): build the item
for `repo` and record the emitted events.  The three `continue`-separated
outcomes are: listing failed; no run picked; run picked and download
attempted. -/
def processRepo (env : Env) (workflow : String) (limit : Nat) (repo : String) :
    Item × List Event :=
  match gh_list_runs env repo workflow limit with
  | (false, msg, _) =>
    ({ repo := repo, workflow_filter := workflow, selected_run := none,
       download_ok := false, error := some ("run_list_failed:" ++ msg) },
     [Event.listCall repo])
  | (true, _, runs) =>
    match pick_run runs with
    | none =>
      ({ repo := repo, workflow_filter := workflow, selected_run := none,
         download_ok := false, error := some "no_runs_found" },
       [Event.listCall repo])
    | some sel =>
      let dl := gh_download_run env repo sel.database_id
      ({ repo := repo, workflow_filter := workflow, selected_run := some sel,
         download_ok := dl.1,
         error := if dl.1 then none
                  else some ("download_failed:" ++ pyTake 2000 dl.2) },
       [Event.listCall repo, Event.writeRunMeta repo sel.database_id,
        Event.downloadCall repo sel.database_id, Event.writeLog repo sel.database_id])

/-- The whole loop of `main`: one `(item, events)` pair per repository, in
order. -/
def processAll (env : Env) (workflow : String) (limit : Nat) (repos : List String) :
    List (Item × List Event) :=
  repos.map (processRepo env workflow limit)

/-- `main` (source lines 132-209) given the parsed arguments and the file's
lines: `ensure_gh` aborts with `SystemExit` when `gh --version` exits
non-zero (modelled as `.error`); otherwise the loop runs over the loaded
repository list, the manifest is written once after the loop, the zip bundle
is written when requested, and the function returns 0. -/
def mainRun (env : Env) (workflow : String) (limit : Nat) (zipFlag : Bool)
    (fileLines : List String) : Except String (Nat × Manifest × List Event) :=
  if env.ghVersionRc ≠ 0 then
    .error ("gh introuvable sur le runner.\n" ++ env.ghVersionOut)
  else
    let repos := read_repos_file fileLines
    let results := processAll env workflow limit repos
    let manifest : Manifest := { workflow_filter := workflow, items := results.map Prod.fst }
    let trace := (results.map Prod.snd).flatten ++ [Event.writeManifest]
      ++ (if zipFlag then [Event.zipWrite] else [])
    .ok (0, manifest, trace)

/-- A filesystem path, as its list of components. -/
abbrev FsPath := List String

/-- A directory listing: every entry's path paired with whether it is a
regular file (`Path.is_file()`), as `src_dir.rglob("*")` enumerates them. -/
abbrev FsListing := List (FsPath × Bool)

/-- `dir` is a proper ancestor of `p`: the components of `dir` lead `p` and
`p` is strictly longer.  This is exactly which paths `dir.rglob("*")`
yields. -/
def leadsPath : List String → List String → Bool
  | [], _ => true
  | _ :: _, [] => false
  | a :: as, b :: bs => a == b && leadsPath as bs

def underDir (dir p : FsPath) : Bool :=
  leadsPath dir p && decide (dir.length < p.length)

/-- `p.relative_to(src_dir.parent)`: drop all components of the parent, which
are all but the last component of `src_dir`. -/
def relToParent (dir p : FsPath) : FsPath :=
  p.drop (dir.length - 1)

/-- `p.is_file()` against a listing. -/
def isFileIn (fs : FsListing) (p : FsPath) : Bool :=
  fs.any (fun e => e.1 == p && e.2)

/-- Lexicographic order on paths, the order `sorted` iterates `rglob` results
in. -/
def pathLe : List String → List String → Bool
  | [], _ => true
  | _ :: _, [] => false
  | a :: as, b :: bs => if a == b then pathLe as bs else decide (a < b)

/-- The entries written by the loop of `zip_folder` (source lines 122-125):
every path under `src_dir`, in sorted order, kept when it is a regular file,
stored under its path relative to `src_dir.parent`. -/
def zipEntries (fs : FsListing) (src_dir : FsPath) : List FsPath :=
  ((((fs.filter (fun e => underDir src_dir e.1)).map Prod.fst).mergeSort pathLe).filter
    (fun p => isFileIn fs p)).map (relToParent src_dir)

/-- `zip_folder` (source lines 119-125) acting on the store of archives
(archive path paired with its entry list): if an archive already exists at
`zip_path` it is unlinked, then the freshly built entry list is written
there. -/
def zip_folder (store : List (FsPath × List FsPath)) (fs : FsListing)
    (src_dir zip_path : FsPath) : List (FsPath × List FsPath) :=
  (if store.any (fun e => e.1 == zip_path)
   then store.filter (fun e => !(e.1 == zip_path))
   else store) ++ [(zip_path, zipEntries fs src_dir)]

/-- Look an archive up in the store, as reading the file at that path. -/
def storeRead (store : List (FsPath × List FsPath)) (p : FsPath) :
    Option (List FsPath) :=
  (store.find? (fun e => e.1 == p)).map Prod.snd

section Lemmas

variable {α : Type _}

theorem head?_filter (p : α → Bool) : ∀ l : List α, (l.filter p).head? = l.find? p := by
  intro l
  induction l with
  | nil => rfl
  | cons a t ih =>
    by_cases h : p a <;> simp [List.filter_cons, List.find?_cons, h, ih]

theorem filter_filter_and (p q : α → Bool) :
    ∀ l : List α, (l.filter p).filter q = l.filter (fun a => p a && q a) := by
  intro l
  induction l with
  | nil => rfl
  | cons a t ih =>
    by_cases h : p a <;> by_cases h' : q a <;>
      simp [List.filter_cons, h, h', ih]

end Lemmas

/-- C2: in priority mode, `pick_run` returns the first run that is completed
with (case-insensitive) success conclusion when one exists; otherwise the
first completed run; otherwise the first run; and `none` exactly when the run
list is empty. -/
theorem pick_run_priority_spec (runs : List RunInfo) :
    pick_run runs =
      ((runs.find? (fun r => isCompletedRun r && isSuccessRun r)).orElse
        (fun _ => (runs.find? isCompletedRun).orElse (fun _ => runs.head?)))
    ∧ (pick_run runs = none ↔ runs = []) := by
  have key : pick_run runs =
      ((runs.find? (fun r => isCompletedRun r && isSuccessRun r)).orElse
        (fun _ => (runs.find? isCompletedRun).orElse (fun _ => runs.head?))) := by
    unfold pick_run
    dsimp only
    rw [filter_filter_and, head?_filter, head?_filter]
    cases h1 : runs.find? (fun r => isCompletedRun r && isSuccessRun r) <;>
      cases h2 : runs.find? isCompletedRun <;>
        simp [Option.orElse]
  refine ⟨key, ?_, ?_⟩
  · intro hnone
    rw [key] at hnone
    cases h1 : runs.find? (fun r => isCompletedRun r && isSuccessRun r) <;>
      cases h2 : runs.find? isCompletedRun <;>
        rw [h1, h2] at hnone <;> simp [Option.orElse] at hnone
    exact hnone
  · intro h
    subst h
    rfl

/-- C10: `pick_run` is total and null-safe: on the empty list it returns
`none` (no out-of-bounds access), and a run with an absent conclusion never
satisfies the completed-and-success filter, because the absent conclusion is
read as the empty string, whose lowercase form is not `"success"`. -/
theorem pick_run_empty_and_null_conclusion :
    pick_run [] = none ∧
    ∀ r : RunInfo, isSuccessRun { r with conclusion := none } = false := by
  exact ⟨rfl, fun r => rfl⟩

section StripLemmas

variable {α : Type _}

theorem dropWhile_head_false (p : α → Bool) :
    ∀ (l : List α) (a : α) (t : List α), l.dropWhile p = a :: t → p a = false := by
  intro l
  induction l with
  | nil => intro a t h; cases h
  | cons b bs ih =>
    intro a t h
    by_cases hb : p b
    · rw [List.dropWhile_cons_of_pos hb] at h
      exact ih a t h
    · rw [List.dropWhile_cons_of_neg hb] at h
      cases h
      exact Bool.of_not_eq_true hb

theorem dropWhile_append_singleton (p : α → Bool) (a : α) (ha : p a = false) :
    ∀ xs : List α, (xs ++ [a]).dropWhile p = xs.dropWhile p ++ [a] := by
  intro xs
  induction xs with
  | nil => simp [List.dropWhile, ha]
  | cons b bs ih =>
    by_cases hb : p b
    · simp only [List.cons_append, List.dropWhile_cons_of_pos hb, ih]
    · simp only [List.cons_append, List.dropWhile_cons_of_neg hb]

/-- The stripped string is empty exactly when dropping leading whitespace
leaves nothing. -/
theorem pyStrip_data_empty (line : String) :
    (pyStrip line).data = [] ↔ line.data.dropWhile Char.isWhitespace = [] := by
  unfold pyStrip
  constructor
  · intro h
    simp only [List.reverse_eq_nil_iff, List.dropWhile_eq_nil_iff,
      List.mem_reverse] at h
    cases ht : line.data.dropWhile Char.isWhitespace with
    | nil => rfl
    | cons a t =>
      have ha := dropWhile_head_false _ _ a t ht
      have hw := h a (by rw [ht]; exact List.mem_cons_self a t)
      rw [ha] at hw
      cases hw
  · intro h
    simp [h]

/-- When some non-whitespace remains, stripping keeps the first
non-whitespace character in front. -/
theorem pyStrip_data_head (line : String) (a : Char) (t : List Char)
    (h : line.data.dropWhile Char.isWhitespace = a :: t) :
    ∃ t', (pyStrip line).data = a :: t' := by
  have ha : Char.isWhitespace a = false := dropWhile_head_false _ _ a t h
  unfold pyStrip
  rw [h]
  refine ⟨(t.reverse.dropWhile Char.isWhitespace).reverse, ?_⟩
  simp only [List.reverse_cons]
  rw [dropWhile_append_singleton _ a ha]
  simp

end StripLemmas

/-- One line of the repository-list file, read the way the spec phrases it:
take the characters from the first non-whitespace one; when there are none
(the line is blank) or the first is `#` (a comment line), the line is
skipped; otherwise its whitespace-trimmed form is kept. -/
def keptLine_spec (line : String) : Option String :=
  let t := line.data.dropWhile Char.isWhitespace
  if t = [] ∨ t.head? = some '#' then none else some (pyStrip line)

/-- The loader as the (amended) spec describes it. -/
def read_repos_spec_fn (fileLines : List String) : List String :=
  fileLines.filterMap keptLine_spec

/-- C6 counterexample: the loader does not return the lines of the file
verbatim — a kept line with surrounding whitespace comes back trimmed, so the
output is not the sub-sequence of input lines the claim describes. -/
theorem read_repos_file_trims_cx :
    read_repos_file ["  acme/widgets"] = ["acme/widgets"] ∧
    ("acme/widgets" : String) ≠ "  acme/widgets" := by
  exact ⟨rfl, by decide⟩

/-- C6 (amended): the loader returns exactly the whitespace-trimmed lines of
the file, in file order, excluding lines that are empty after trimming and
lines whose first non-whitespace character is `#`; in particular the file
with lines `acme/widgets` and `# acme/old` yields exactly
`["acme/widgets"]`. -/
theorem read_repos_file_spec :
    (∀ fileLines, read_repos_file fileLines = read_repos_spec_fn fileLines) ∧
    read_repos_file ["acme/widgets", "# acme/old"] = ["acme/widgets"] := by
  refine ⟨fun fileLines => ?_, rfl⟩
  unfold read_repos_file read_repos_spec_fn
  congr 1
  funext line
  unfold keptLine_spec
  dsimp only
  cases h : line.data.dropWhile Char.isWhitespace with
  | nil =>
    have he : pyEmpty (pyStrip line) = true := by
      unfold pyEmpty
      rw [List.isEmpty_iff]
      exact (pyStrip_data_empty line).mpr h
    simp [he]
  | cons a t =>
    obtain ⟨t', ht'⟩ := pyStrip_data_head line a t h
    have he : pyEmpty (pyStrip line) = false := by
      unfold pyEmpty
      rw [ht']
      rfl
    have hsw : startsWithHash (pyStrip line) = (a == '#') := by
      unfold startsWithHash
      rw [ht']
      simp
    rw [he, hsw]
    by_cases hc : a = '#'
    · subst hc
      simp
    · simp [hc]


/-- Branch equation: when the listing reports failure, the iteration records
the error and emits only the listing call. -/
theorem processRepo_listfail (env : Env) (workflow : String) (limit : Nat)
    (repo : String) (msg : String) (rs : List RunInfo)
    (h : gh_list_runs env repo workflow limit = (false, msg, rs)) :
    processRepo env workflow limit repo =
      ({ repo := repo, workflow_filter := workflow, selected_run := none,
         download_ok := false, error := some ("run_list_failed:" ++ msg) },
       [Event.listCall repo]) := by
  unfold processRepo
  rw [h]

/-- Branch equation: listing succeeded but no run was picked. -/
theorem processRepo_norun (env : Env) (workflow : String) (limit : Nat)
    (repo : String) (msg : String) (rs : List RunInfo)
    (h : gh_list_runs env repo workflow limit = (true, msg, rs))
    (hp : pick_run rs = none) :
    processRepo env workflow limit repo =
      ({ repo := repo, workflow_filter := workflow, selected_run := none,
         download_ok := false, error := some "no_runs_found" },
       [Event.listCall repo]) := by
  unfold processRepo
  rw [h]
  dsimp only
  rw [hp]

/-- Branch equation: listing succeeded and a run was picked, so the download
is attempted once and its outcome recorded. -/
theorem processRepo_selected (env : Env) (workflow : String) (limit : Nat)
    (repo : String) (msg : String) (rs : List RunInfo) (sel : RunInfo)
    (h : gh_list_runs env repo workflow limit = (true, msg, rs))
    (hp : pick_run rs = some sel) :
    processRepo env workflow limit repo =
      ({ repo := repo, workflow_filter := workflow, selected_run := some sel,
         download_ok := (gh_download_run env repo sel.database_id).1,
         error := if (gh_download_run env repo sel.database_id).1 then none
                  else some ("download_failed:" ++
                    pyTake 2000 (gh_download_run env repo sel.database_id).2) },
       [Event.listCall repo, Event.writeRunMeta repo sel.database_id,
        Event.downloadCall repo sel.database_id, Event.writeLog repo sel.database_id]) := by
  unfold processRepo
  rw [h]
  dsimp only
  rw [hp]

/-- The three branch equations cover everything: a case principle on the
shape of one loop iteration. -/
theorem processRepo_cases (env : Env) (workflow : String) (limit : Nat)
    (repo : String) {motive : Prop}
    (h1 : ∀ msg rs, gh_list_runs env repo workflow limit = (false, msg, rs) → motive)
    (h2 : ∀ msg rs, gh_list_runs env repo workflow limit = (true, msg, rs) →
      pick_run rs = none → motive)
    (h3 : ∀ msg rs sel, gh_list_runs env repo workflow limit = (true, msg, rs) →
      pick_run rs = some sel → motive) : motive := by
  cases hl : env.listOutcome repo workflow limit with
  | cmdFailed out =>
    exact h1 (pyStrip out) [] (by simp [gh_list_runs, hl])
  | parseFailed =>
    exact h1 "json_parse_failed" [] (by simp [gh_list_runs, hl])
  | ok runs =>
    cases hp : pick_run runs with
    | none => exact h2 "ok" runs (by simp [gh_list_runs, hl]) hp
    | some sel => exact h3 "ok" runs sel (by simp [gh_list_runs, hl]) hp

/-- Every item carries the repository it was built for. -/
theorem processRepo_repo (env : Env) (workflow : String) (limit : Nat) (repo : String) :
    (processRepo env workflow limit repo).1.repo = repo := by
  refine processRepo_cases env workflow limit repo ?_ ?_ ?_
  · intro msg rs h
    rw [processRepo_listfail env workflow limit repo msg rs h]
  · intro msg rs h hp
    rw [processRepo_norun env workflow limit repo msg rs h hp]
  · intro msg rs sel h hp
    rw [processRepo_selected env workflow limit repo msg rs sel h hp]

/-- Every event a loop iteration emits belongs to the loop body. -/
theorem processRepo_events_repo (env : Env) (workflow : String) (limit : Nat)
    (repo : String) :
    ∀ e ∈ (processRepo env workflow limit repo).2, isRepoEvent e = true := by
  refine processRepo_cases env workflow limit repo ?_ ?_ ?_
  · intro msg rs h
    rw [processRepo_listfail env workflow limit repo msg rs h]
    intro e he
    simp only [List.mem_singleton] at he
    subst he
    rfl
  · intro msg rs h hp
    rw [processRepo_norun env workflow limit repo msg rs h hp]
    intro e he
    simp only [List.mem_singleton] at he
    subst he
    rfl
  · intro msg rs sel h hp
    rw [processRepo_selected env workflow limit repo msg rs sel h hp]
    intro e he
    simp only [List.mem_cons, List.not_mem_nil, or_false] at he
    rcases he with h' | h' | h' | h' <;> subst h' <;> rfl

/-- C3: a manifest item without a chosen run records no download attempt; a
manifest item with a chosen run records exactly one download attempt, and its
`download_ok` flag is the outcome of that one `gh run download` invocation. -/
theorem item_download_coupling (env : Env) (workflow : String) (limit : Nat)
    (repo : String) :
    ((processRepo env workflow limit repo).1.selected_run = none →
      ((processRepo env workflow limit repo).2.filter isDownloadCall).length = 0) ∧
    (∀ sel, (processRepo env workflow limit repo).1.selected_run = some sel →
      ((processRepo env workflow limit repo).2.filter isDownloadCall).length = 1 ∧
      (processRepo env workflow limit repo).1.download_ok =
        (gh_download_run env repo sel.database_id).1) := by
  refine processRepo_cases env workflow limit repo ?_ ?_ ?_
  · intro msg rs h
    rw [processRepo_listfail env workflow limit repo msg rs h]
    exact ⟨fun _ => rfl, fun sel hsel => by cases hsel⟩
  · intro msg rs h hp
    rw [processRepo_norun env workflow limit repo msg rs h hp]
    exact ⟨fun _ => rfl, fun sel hsel => by cases hsel⟩
  · intro msg rs sel' h hp
    rw [processRepo_selected env workflow limit repo msg rs sel' h hp]
    constructor
    · intro hn
      cases hn
    · intro sel hsel
      have hs : sel' = sel := by simpa using hsel
      subst hs
      exact ⟨rfl, rfl⟩

/-- C4: a failed listing (non-zero exit of the listing command, or output
that is not well-formed JSON — exactly the cases in which `gh_list_runs`
reports failure) leaves the item with an error string and no selected run,
makes no download attempt, performs the single listing call with no retry,
and the batch still produces one item per repository. -/
theorem run_list_failure_nonfatal (env : Env) (workflow : String) (limit : Nat)
    (repo : String) (h : (gh_list_runs env repo workflow limit).1 = false) :
    ((gh_list_runs env repo workflow limit).1 = false ↔
      (∃ out, env.listOutcome repo workflow limit = ListResult.cmdFailed out) ∨
        env.listOutcome repo workflow limit = ListResult.parseFailed) ∧
    (processRepo env workflow limit repo).1.error =
      some ("run_list_failed:" ++ (gh_list_runs env repo workflow limit).2.1) ∧
    (processRepo env workflow limit repo).1.selected_run = none ∧
    ((processRepo env workflow limit repo).2.filter isListCall).length = 1 ∧
    ((processRepo env workflow limit repo).2.filter isDownloadCall).length = 0 ∧
    ∀ repos : List String, (processAll env workflow limit repos).length = repos.length := by
  have hiff : (gh_list_runs env repo workflow limit).1 = false ↔
      (∃ out, env.listOutcome repo workflow limit = ListResult.cmdFailed out) ∨
        env.listOutcome repo workflow limit = ListResult.parseFailed := by
    unfold gh_list_runs
    cases env.listOutcome repo workflow limit <;> simp
  have key : ∃ msg rs, gh_list_runs env repo workflow limit = (false, msg, rs) := by
    refine ⟨(gh_list_runs env repo workflow limit).2.1,
      (gh_list_runs env repo workflow limit).2.2, ?_⟩
    rw [← h]
  obtain ⟨msg, rs, hfail⟩ := key
  have hmsg : (gh_list_runs env repo workflow limit).2.1 = msg := by rw [hfail]
  rw [processRepo_listfail env workflow limit repo msg rs hfail, hmsg]
  exact ⟨hiff, rfl, rfl, rfl, rfl, fun repos => by simp [processAll]⟩

/-- C5: a non-zero exit of the download command is not fatal: the item keeps
`download_ok = false`, its error string preserves the stripped captured
output truncated to its first 2000 characters, and the batch still produces
one item per repository. -/
theorem download_failure_nonfatal (env : Env) (workflow : String) (limit : Nat)
    (repo : String) (sel : RunInfo)
    (hsel : (processRepo env workflow limit repo).1.selected_run = some sel)
    (hrc : (env.downloadRun repo sel.database_id).1 ≠ 0) :
    (processRepo env workflow limit repo).1.download_ok = false ∧
    (processRepo env workflow limit repo).1.error =
      some ("download_failed:" ++
        pyTake 2000 (pyStrip (env.downloadRun repo sel.database_id).2)) ∧
    ∀ repos : List String, (processAll env workflow limit repos).length = repos.length := by
  refine processRepo_cases env workflow limit repo ?_ ?_ ?_
  · intro msg rs h
    rw [processRepo_listfail env workflow limit repo msg rs h] at hsel
    cases hsel
  · intro msg rs h hp
    rw [processRepo_norun env workflow limit repo msg rs h hp] at hsel
    cases hsel
  · intro msg rs sel' h hp
    have heq := processRepo_selected env workflow limit repo msg rs sel' h hp
    rw [heq] at hsel
    have hs : sel' = sel := by simpa using hsel
    subst hs
    rw [heq]
    have hb : ((env.downloadRun repo sel'.database_id).1 == 0) = false :=
      beq_eq_false_iff_ne.mpr hrc
    have hdl : (gh_download_run env repo sel'.database_id).1 = false := by
      unfold gh_download_run
      exact hb
    rw [hdl]
    refine ⟨rfl, ?_, fun repos => by simp [processAll]⟩
    simp only [Bool.false_eq_true, if_false]
    rfl


/-- An event of the loop body is not the manifest write. -/
theorem isRepoEvent_not_manifest (e : Event) (h : isRepoEvent e = true) :
    isWriteManifest e = false := by
  cases e <;> first | rfl | cases h

/-- The manifest `mainRun` produces when the batch runs. -/
def mainManifest (env : Env) (workflow : String) (limit : Nat)
    (fileLines : List String) : Manifest :=
  { workflow_filter := workflow,
    items := (processAll env workflow limit (read_repos_file fileLines)).map Prod.fst }

/-- The events of the processing loop, in order. -/
def loopTrace (env : Env) (workflow : String) (limit : Nat)
    (fileLines : List String) : List Event :=
  ((processAll env workflow limit (read_repos_file fileLines)).map Prod.snd).flatten

/-- The events after the manifest write: the optional zip write. -/
def endTrace (zipFlag : Bool) : List Event :=
  if zipFlag then [Event.zipWrite] else []

/-- When `gh --version` succeeds, `mainRun` completes the batch and returns
exit code 0, the final manifest, and the full event trace. -/
theorem mainRun_ok (env : Env) (workflow : String) (limit : Nat) (zipFlag : Bool)
    (fileLines : List String) (h : env.ghVersionRc = 0) :
    mainRun env workflow limit zipFlag fileLines =
      Except.ok (0, mainManifest env workflow limit fileLines,
        loopTrace env workflow limit fileLines ++ [Event.writeManifest]
          ++ endTrace zipFlag) := by
  unfold mainRun mainManifest loopTrace endTrace
  rw [if_neg (by simp [h])]

/-- C1: when the batch runs (the external tool is present), the manifest
holds exactly one item per non-blank, non-comment input line, in input
order — whatever the listing, selection and download outcomes were. -/
theorem manifest_one_item_per_line (env : Env) (workflow : String) (limit : Nat)
    (zipFlag : Bool) (fileLines : List String) (h : env.ghVersionRc = 0) :
    ∃ m trace, mainRun env workflow limit zipFlag fileLines = Except.ok (0, m, trace) ∧
      m.items.map Item.repo = read_repos_file fileLines ∧
      m.items.length = (read_repos_file fileLines).length := by
  refine ⟨mainManifest env workflow limit fileLines,
    loopTrace env workflow limit fileLines ++ [Event.writeManifest] ++ endTrace zipFlag,
    mainRun_ok env workflow limit zipFlag fileLines h, ?_, ?_⟩
  · show ((processAll env workflow limit (read_repos_file fileLines)).map Prod.fst).map
      Item.repo = read_repos_file fileLines
    unfold processAll
    rw [List.map_map, List.map_map]
    have hc : ∀ repo ∈ read_repos_file fileLines,
        ((Item.repo ∘ Prod.fst) ∘ processRepo env workflow limit) repo = id repo := by
      intro repo _
      exact processRepo_repo env workflow limit repo
    rw [List.map_congr_left hc, List.map_id]
  · show ((processAll env workflow limit (read_repos_file fileLines)).map Prod.fst).length
      = (read_repos_file fileLines).length
    simp [processAll]

/-- C7: the exit code is 0 whenever the batch completes, however many
individual repositories failed; when `gh --version` fails the process aborts
with an error before any repository is processed — the outcome does not
depend on the listing or download behavior at all. -/
theorem exit_code_policy (env : Env) (workflow : String) (limit : Nat)
    (zipFlag : Bool) (fileLines : List String) :
    (env.ghVersionRc = 0 →
      ∃ m trace, mainRun env workflow limit zipFlag fileLines = Except.ok (0, m, trace)) ∧
    (env.ghVersionRc ≠ 0 →
      ∀ lo dr, mainRun { env with listOutcome := lo, downloadRun := dr }
          workflow limit zipFlag fileLines =
        Except.error ("gh introuvable sur le runner.\n" ++ env.ghVersionOut)) := by
  constructor
  · intro h
    exact ⟨mainManifest env workflow limit fileLines,
      loopTrace env workflow limit fileLines ++ [Event.writeManifest] ++ endTrace zipFlag,
      mainRun_ok env workflow limit zipFlag fileLines h⟩
  · intro h lo dr
    unfold mainRun
    rw [if_pos h]

/-- C8: the manifest is written exactly once, and that single write comes
after every event of the processing loop; the only events that may follow it
are the optional archive write. -/
theorem manifest_single_final_write (env : Env) (workflow : String) (limit : Nat)
    (zipFlag : Bool) (fileLines : List String) (h : env.ghVersionRc = 0) :
    ∃ m pre post,
      mainRun env workflow limit zipFlag fileLines =
        Except.ok (0, m, pre ++ Event.writeManifest :: post) ∧
      (∀ e ∈ pre, isRepoEvent e = true) ∧
      (∀ e ∈ post, e = Event.zipWrite) ∧
      ((pre ++ Event.writeManifest :: post).filter isWriteManifest).length = 1 := by
  have hpre : ∀ e ∈ loopTrace env workflow limit fileLines, isRepoEvent e = true := by
    intro e he
    unfold loopTrace at he
    rw [List.mem_flatten] at he
    obtain ⟨l, hl, hel⟩ := he
    rw [List.mem_map] at hl
    obtain ⟨pair, hpair, rfl⟩ := hl
    unfold processAll at hpair
    rw [List.mem_map] at hpair
    obtain ⟨repo, _, rfl⟩ := hpair
    exact processRepo_events_repo env workflow limit repo e hel
  have hpost : ∀ e ∈ endTrace zipFlag, e = Event.zipWrite := by
    intro e he
    unfold endTrace at he
    cases zipFlag with
    | false => cases he
    | true =>
      simp only [if_true, List.mem_singleton] at he
      exact he
  refine ⟨mainManifest env workflow limit fileLines,
    loopTrace env workflow limit fileLines, endTrace zipFlag, ?_, hpre, hpost, ?_⟩
  · rw [mainRun_ok env workflow limit zipFlag fileLines h, List.append_assoc,
      List.singleton_append]
  · rw [List.filter_append]
    have h1 : ((loopTrace env workflow limit fileLines).filter isWriteManifest) = [] := by
      rw [List.filter_eq_nil_iff]
      intro e he
      rw [isRepoEvent_not_manifest e (hpre e he)]
      simp
    have h2 : ((Event.writeManifest :: endTrace zipFlag).filter isWriteManifest)
        = [Event.writeManifest] := by
      rw [List.filter_cons_of_pos (by rfl)]
      unfold endTrace
      cases zipFlag <;> rfl
    rw [h1, h2]
    rfl

section PathLemmas

variable {α : Type _}

theorem find?_append_of_none (p : α → Bool) (l1 l2 : List α)
    (h : l1.find? p = none) : (l1 ++ l2).find? p = l2.find? p := by
  induction l1 with
  | nil => rfl
  | cons a t ih =>
    rw [List.find?_cons] at h
    cases hpa : p a with
    | true => rw [hpa] at h; cases h
    | false =>
      rw [hpa] at h
      rw [List.cons_append, List.find?_cons, hpa]
      exact ih h

theorem drop_pred_getLast : ∀ (l : List α), l ≠ [] →
    ∃ a, l.getLast? = some a ∧ l.drop (l.length - 1) = [a] := by
  intro l
  induction l with
  | nil => intro h; cases h rfl
  | cons b t ih =>
    intro _
    cases t with
    | nil => exact ⟨b, rfl, rfl⟩
    | cons c u =>
      obtain ⟨a, h1, h2⟩ := ih (by simp)
      refine ⟨a, ?_, ?_⟩
      · rw [List.getLast?_cons_cons]
        exact h1
      · have hlen : (b :: c :: u).length - 1 = u.length + 1 := by simp
        rw [hlen, List.drop_succ_cons]
        have hlen2 : (c :: u).length - 1 = u.length := by simp
        rw [hlen2] at h2
        exact h2

theorem leadsPath_iff : ∀ d p : List String, leadsPath d p = true ↔ ∃ t, p = d ++ t := by
  intro d
  induction d with
  | nil =>
    intro p
    simp [leadsPath]
  | cons a as ih =>
    intro p
    cases p with
    | nil =>
      simp [leadsPath]
    | cons b bs =>
      rw [show leadsPath (a :: as) (b :: bs) = ((a == b) && leadsPath as bs) from rfl]
      rw [Bool.and_eq_true, beq_iff_eq, ih bs]
      constructor
      · rintro ⟨rfl, t, rfl⟩
        exact ⟨t, rfl⟩
      · rintro ⟨t, h⟩
        rw [List.cons_append] at h
        injection h with h1 h2
        exact ⟨h1.symm, t, h2⟩

end PathLemmas

/-- C9: `zip_folder` overwrites: whatever archive previously sat at
`zip_path`, afterwards the store maps `zip_path` to exactly the freshly built
entry list; that entry list holds exactly the regular files under the output
directory, each under its path relative to the output directory's parent; and
every entry's top-level component is the output directory's own name. -/
theorem zip_folder_exact_files (store : List (FsPath × List FsPath)) (fs : FsListing)
    (src_dir zip_path : FsPath) (hnn : src_dir ≠ []) :
    storeRead (zip_folder store fs src_dir zip_path) zip_path =
      some (zipEntries fs src_dir) ∧
    (∀ q, q ∈ zipEntries fs src_dir ↔
      ∃ p, (p, true) ∈ fs ∧ underDir src_dir p = true ∧ q = relToParent src_dir p) ∧
    (∀ q ∈ zipEntries fs src_dir, q.head? = src_dir.getLast?) := by
  have hmem : ∀ q, q ∈ zipEntries fs src_dir ↔
      ∃ p, (p, true) ∈ fs ∧ underDir src_dir p = true ∧ q = relToParent src_dir p := by
    intro q
    unfold zipEntries
    rw [List.mem_map]
    constructor
    · rintro ⟨p, hp, rfl⟩
      rw [List.mem_filter] at hp
      obtain ⟨hmem', hfile⟩ := hp
      rw [List.mem_mergeSort, List.mem_map] at hmem'
      obtain ⟨e, he, rfl⟩ := hmem'
      rw [List.mem_filter] at he
      obtain ⟨_, hunder⟩ := he
      unfold isFileIn at hfile
      rw [List.any_eq_true] at hfile
      obtain ⟨e', he', hpe'⟩ := hfile
      rw [Bool.and_eq_true, beq_iff_eq] at hpe'
      obtain ⟨heq, hb⟩ := hpe'
      refine ⟨e.1, ?_, hunder, rfl⟩
      have he'' : e' = (e.1, true) := by
        cases e'
        cases heq
        cases hb
        rfl
      rw [← he'']
      exact he'
    · rintro ⟨p, hpfs, hunder, rfl⟩
      refine ⟨p, ?_, rfl⟩
      rw [List.mem_filter]
      constructor
      · rw [List.mem_mergeSort, List.mem_map]
        exact ⟨(p, true), List.mem_filter.mpr ⟨hpfs, hunder⟩, rfl⟩
      · unfold isFileIn
        rw [List.any_eq_true]
        exact ⟨(p, true), hpfs, by simp⟩
  refine ⟨?_, hmem, ?_⟩
  · have hclean : ∀ st : List (FsPath × List FsPath),
        (∀ e ∈ st, (e.1 == zip_path) = false) →
        storeRead (st ++ [(zip_path, zipEntries fs src_dir)]) zip_path
          = some (zipEntries fs src_dir) := by
      intro st hst
      unfold storeRead
      have hnone : st.find? (fun e => e.1 == zip_path) = none := by
        rw [List.find?_eq_none]
        intro e he
        rw [hst e he]
        exact Bool.false_ne_true
      rw [find?_append_of_none _ _ _ hnone, List.find?_cons]
      simp
    unfold zip_folder
    cases hany : store.any (fun e => e.1 == zip_path) with
    | true =>
      rw [if_pos rfl]
      refine hclean _ ?_
      intro e he
      rw [List.mem_filter] at he
      obtain ⟨_, hne⟩ := he
      rw [Bool.not_eq_true'] at hne
      exact hne
    | false =>
      rw [if_neg Bool.false_ne_true]
      refine hclean _ ?_
      intro e he
      have hne := List.any_eq_false.mp hany e he
      rw [Bool.not_eq_true] at hne
      exact hne
  · intro q hq
    obtain ⟨p, _, hunder, rfl⟩ := (hmem q).mp hq
    unfold underDir at hunder
    rw [Bool.and_eq_true, decide_eq_true_eq] at hunder
    obtain ⟨hlead, hlt⟩ := hunder
    obtain ⟨t, rfl⟩ := (leadsPath_iff src_dir _).mp hlead
    obtain ⟨a, ha1, ha2⟩ := drop_pred_getLast src_dir hnn
    unfold relToParent
    rw [List.drop_append_of_le_length (Nat.sub_le _ _), ha2, ha1]
    rfl

/-- A completed run that concluded in failure. -/
def runA : RunInfo :=
  { database_id := 11, status := "completed", conclusion := some "failure",
    created_at := "2025-01-02T00:00:00Z", display_title := some "build",
    workflow_name := some "ci", html_url := none }

/-- A completed run whose conclusion is an uppercase success. -/
def runB : RunInfo :=
  { database_id := 12, status := "completed", conclusion := some "SUCCESS",
    created_at := "2025-01-01T00:00:00Z", display_title := none,
    workflow_name := some "ci", html_url := some "https://example.test/12" }

/-- A run still in progress, with no conclusion yet. -/
def runC : RunInfo :=
  { database_id := 13, status := "in_progress", conclusion := none,
    created_at := "2025-01-03T00:00:00Z", display_title := none,
    workflow_name := none, html_url := none }

/-- A concrete world: `gh` present; one repository with runs whose download
fails, one with no runs, one with malformed listing output, everything else
with a failing listing command. -/
def envW : Env :=
  { ghVersionRc := 0, ghVersionOut := "gh version 2.40.0",
    listOutcome := fun repo _ _ =>
      if repo == "acme/widgets" then ListResult.ok [runC, runA, runB]
      else if repo == "acme/empty" then ListResult.ok []
      else if repo == "acme/badjson" then ListResult.parseFailed
      else ListResult.cmdFailed "  boom  ",
    downloadRun := fun repo _ =>
      if repo == "acme/widgets" then (1, " no artifacts found ") else (0, "ok") }

/-- A world where `gh --version` fails. -/
def envBad : Env :=
  { ghVersionRc := 1, ghVersionOut := "gh: not found",
    listOutcome := fun _ _ _ => ListResult.parseFailed,
    downloadRun := fun _ _ => (0, "") }

theorem manifest_one_item_per_line_witness :
    ∃ m trace, mainRun envW "" 30 false ["acme/widgets", "", "# x", "bad/repo"]
        = Except.ok (0, m, trace) ∧
      m.items.map Item.repo = read_repos_file ["acme/widgets", "", "# x", "bad/repo"] ∧
      m.items.length = (read_repos_file ["acme/widgets", "", "# x", "bad/repo"]).length :=
  manifest_one_item_per_line envW "" 30 false ["acme/widgets", "", "# x", "bad/repo"] rfl

theorem item_download_coupling_witness :
    ((processRepo envW "" 30 "acme/empty").2.filter isDownloadCall).length = 0 ∧
    (((processRepo envW "" 30 "acme/widgets").2.filter isDownloadCall).length = 1 ∧
      (processRepo envW "" 30 "acme/widgets").1.download_ok =
        (gh_download_run envW "acme/widgets" runB.database_id).1) :=
  ⟨(item_download_coupling envW "" 30 "acme/empty").1 rfl,
   (item_download_coupling envW "" 30 "acme/widgets").2 runB rfl⟩

theorem run_list_failure_nonfatal_witness :
    (processRepo envW "" 30 "other/repo").1.error =
      some ("run_list_failed:" ++ (gh_list_runs envW "other/repo" "" 30).2.1) ∧
    (processRepo envW "" 30 "other/repo").1.selected_run = none :=
  ⟨(run_list_failure_nonfatal envW "" 30 "other/repo" rfl).2.1,
   (run_list_failure_nonfatal envW "" 30 "other/repo" rfl).2.2.1⟩

theorem download_failure_nonfatal_witness :
    (processRepo envW "" 30 "acme/widgets").1.download_ok = false ∧
    (processRepo envW "" 30 "acme/widgets").1.error =
      some ("download_failed:" ++
        pyTake 2000 (pyStrip (envW.downloadRun "acme/widgets" runB.database_id).2)) :=
  ⟨(download_failure_nonfatal envW "" 30 "acme/widgets" runB rfl (by decide)).1,
   (download_failure_nonfatal envW "" 30 "acme/widgets" runB rfl (by decide)).2.1⟩

theorem exit_code_policy_witness :
    (∃ m trace, mainRun envW "" 30 false ["acme/widgets"] = Except.ok (0, m, trace)) ∧
    mainRun { envBad with listOutcome := envW.listOutcome, downloadRun := envW.downloadRun }
        "" 30 false ["acme/widgets"] =
      Except.error ("gh introuvable sur le runner.\n" ++ envBad.ghVersionOut) :=
  ⟨(exit_code_policy envW "" 30 false ["acme/widgets"]).1 rfl,
   (exit_code_policy envBad "" 30 false ["acme/widgets"]).2 (by decide)
     envW.listOutcome envW.downloadRun⟩

theorem manifest_single_final_write_witness :
    ∃ m pre post,
      mainRun envW "" 30 true ["acme/widgets", "acme/empty"] =
        Except.ok (0, m, pre ++ Event.writeManifest :: post) ∧
      (∀ e ∈ pre, isRepoEvent e = true) ∧
      (∀ e ∈ post, e = Event.zipWrite) ∧
      ((pre ++ Event.writeManifest :: post).filter isWriteManifest).length = 1 :=
  manifest_single_final_write envW "" 30 true ["acme/widgets", "acme/empty"] rfl

/-- Listing of an output directory holding two regular files, a
subdirectory, and an unrelated sibling. -/
def fsW : FsListing :=
  [(["out"], false), (["out", "a"], false), (["out", "a", "f.txt"], true),
   (["out", "manifest.json"], true), (["top"], false)]

/-- A store already holding an archive at the bundle path. -/
def storeW : List (FsPath × List FsPath) :=
  [(["all_reports.zip"], [["stale"]])]

theorem zip_folder_exact_files_witness :
    storeRead (zip_folder storeW fsW ["out"] ["all_reports.zip"]) ["all_reports.zip"] =
      some (zipEntries fsW ["out"]) :=
  (zip_folder_exact_files storeW fsW ["out"] ["all_reports.zip"] (by decide)).1
